import Mathlib

/-!
Shallow embedding of the FLAC metadata parser (`src/lib.rs` of `mdlayher/flac-rs`)
and proofs about its behaviour.

Modelling conventions:
* a Rust `u8` byte is `Fin 256`;
* a byte source (`Read + Seek` cursor) is a `List Byte`; a read consumes a
  prefix and leaves the remaining suffix;
* `io::Result` values are `Except Error _` with `Error` mirroring the
  `io::Error` values the code constructs (the `UnexpectedEof` of `read_exact`,
  and `io::Error::new(InvalidInput, msg)`);
* a Rust panic (slice index out of range, `Result::unwrap` on `Err`) is the
  `Outcome.fault` constructor: it is an unrecoverable process abort, distinct
  from every typed `io::Error` return;
* Rust `String`s are kept as their underlying UTF-8 byte lists, validated by
  `validUtf8` (the check performed by `str::from_utf8`).
-/

namespace Flac

set_option maxRecDepth 8192

/-- A `u8` byte. -/
abbrev Byte := Fin 256

/-- In-bounds list indexing, `buf[i]`; every use below is guarded so the
default is never taken. -/
def byteAt (buf : List Byte) (i : Nat) : Byte := buf.getD i 0

/-- `BE::read_u16`: big-endian 16-bit value of two bytes. -/
def beRead16 (b0 b1 : Byte) : Nat := b0.val * 2 ^ 8 + b1.val

/-- `BE::read_u32`: big-endian 32-bit value of four bytes. -/
def beRead32 (b0 b1 b2 b3 : Byte) : Nat :=
  b0.val * 2 ^ 24 + b1.val * 2 ^ 16 + b2.val * 2 ^ 8 + b3.val

/-- `BE::read_u64`: big-endian 64-bit value of eight bytes. -/
def beRead64 (b0 b1 b2 b3 b4 b5 b6 b7 : Byte) : Nat :=
  b0.val * 2 ^ 56 + b1.val * 2 ^ 48 + b2.val * 2 ^ 40 + b3.val * 2 ^ 32 +
  b4.val * 2 ^ 24 + b5.val * 2 ^ 16 + b6.val * 2 ^ 8 + b7.val

/-- `LE::read_u32`: little-endian 32-bit value of four bytes. -/
def leRead32 (b0 b1 b2 b3 : Byte) : Nat :=
  b3.val * 2 ^ 24 + b2.val * 2 ^ 16 + b1.val * 2 ^ 8 + b0.val

/-- The typed `io::Error` values the parser constructs or receives:
`read_exact` fails with kind `UnexpectedEof`; the parser itself builds
`io::Error::new(io::ErrorKind::InvalidInput, msg)` values. -/
inductive Error where
  | unexpectedEof : Error
  | invalidInput : String → Error
deriving DecidableEq

/-- Result of running code that may also abort the process: `ok` and `err`
are the two sides of `io::Result`, while `fault` is a Rust panic (slice
index out of range, or `unwrap` of an `Err`) — not a return value at all. -/
inductive Outcome (α : Type) where
  | ok : α → Outcome α
  | err : Error → Outcome α
  | fault : Outcome α
deriving DecidableEq

/-- `METADATA_BLOCK_HEADER` (struct `Header` in the source). -/
structure Header where
  last_block : Bool
  block_type : Nat
  block_length : Nat
deriving DecidableEq

/-- `parse_header(buf: [u8; 4])`: bit 7 of byte 0 is the last-block flag,
its low 7 bits the block type, and the low 24 bits of the big-endian 32-bit
value of the four bytes the block length. Total — no error path. -/
def parse_header (b0 b1 b2 b3 : Byte) : Header where
  last_block := b0.val >>> 7 == 1
  block_type := b0.val &&& 0x7f
  block_length := beRead32 b0 b1 b2 b3 &&& 0xffffff

/-- `METADATA_BLOCK_STREAMINFO` (struct `StreamInfo` in the source).
Numeric fields are the mathematical values of the corresponding
`u16`/`u32`/`u8`/`u64` fields (none of the extractions below can exceed the
ranges of the Rust types). -/
structure StreamInfo where
  minimum_block_size : Nat
  maximum_block_size : Nat
  minimum_frame_size : Nat
  maximum_frame_size : Nat
  sample_rate : Nat
  channels : Nat
  bits_per_sample : Nat
  total_samples : Nat
  md5_signature : List Byte
deriving DecidableEq

/-- `parse_stream_info(buf: &[u8])`: rejects any body whose length is not
exactly 34 with an `InvalidInput` error, otherwise extracts the packed
fields exactly as the slice reads, masks and shifts of the source do. -/
def parse_stream_info (buf : List Byte) : Except Error StreamInfo :=
  if buf.length ≠ 34 then
    .error (.invalidInput "incorrect size for FLAC stream info block")
  else
    .ok {
      minimum_block_size :=
        beRead16 (byteAt buf 0) (byteAt buf 1)
      maximum_block_size :=
        beRead16 (byteAt buf 2) (byteAt buf 3)
      minimum_frame_size :=
        beRead32 (byteAt buf 4) (byteAt buf 5) (byteAt buf 6) (byteAt buf 7) >>> 8
      maximum_frame_size :=
        beRead32 (byteAt buf 7) (byteAt buf 8) (byteAt buf 9) (byteAt buf 10) >>> 8
      sample_rate :=
        beRead32 (byteAt buf 10) (byteAt buf 11) (byteAt buf 12) (byteAt buf 13) >>> 12
      channels := (byteAt buf 12).val &&& 0x0e
      bits_per_sample :=
        (((byteAt buf 12).val &&& 0x01) ||| (((byteAt buf 13).val &&& 0xf0) >>> 4)) + 1
      total_samples :=
        (beRead64 (byteAt buf 13) (byteAt buf 14) (byteAt buf 15) (byteAt buf 16)
            (byteAt buf 17) (byteAt buf 18) (byteAt buf 19) (byteAt buf 20)
          &&& 0x0fffffffff000000) >>> 24
      md5_signature := (buf.drop 18).take 16
    }

/-- Is `b` a UTF-8 continuation byte (`0x80..=0xBF`)? -/
def isCont (b : Byte) : Bool := decide (0x80 ≤ b.val) && decide (b.val ≤ 0xbf)

/-- The UTF-8 validity check performed by `str::from_utf8` (RFC 3629:
shortest forms only, no surrogates, max `U+10FFFF`). -/
def validUtf8 : List Byte → Bool
  | [] => true
  | b :: rest =>
    if b.val < 0x80 then
      validUtf8 rest
    else if b.val < 0xc2 then
      false
    else if b.val < 0xe0 then
      match rest with
      | c1 :: r => isCont c1 && validUtf8 r
      | [] => false
    else if b.val < 0xf0 then
      match rest with
      | c1 :: c2 :: r =>
        (if b.val = 0xe0 then decide (0xa0 ≤ c1.val) && decide (c1.val ≤ 0xbf)
         else if b.val = 0xed then decide (0x80 ≤ c1.val) && decide (c1.val ≤ 0x9f)
         else isCont c1)
          && isCont c2 && validUtf8 r
      | _ => false
    else if b.val < 0xf5 then
      match rest with
      | c1 :: c2 :: c3 :: r =>
        (if b.val = 0xf0 then decide (0x90 ≤ c1.val) && decide (c1.val ≤ 0xbf)
         else if b.val = 0xf4 then decide (0x80 ≤ c1.val) && decide (c1.val ≤ 0x8f)
         else isCont c1)
          && isCont c2 && isCont c3 && validUtf8 r
      | _ => false
    else
      false

/-- `METADATA_BLOCK_VORBIS_COMMENT` (struct `VorbisComment` in the source).
The Rust `String`s are kept as their UTF-8 byte lists. -/
structure VorbisComment where
  vendor_string : List Byte
  user_comments : List (List Byte)
deriving DecidableEq

/-- The slice `&buf[a..b]`: `none` models the panic Rust raises when the
range is out of bounds (`a > b` or `b > buf.len()`). -/
def sliceAt (buf : List Byte) (a b : Nat) : Option (List Byte) :=
  if a ≤ b ∧ b ≤ buf.length then some ((buf.drop a).take (b - a)) else none

/-- `LE::read_u32(&buf[idx..idx + 4])`: `none` models the out-of-bounds
slice panic. -/
def readLe32At (buf : List Byte) (idx : Nat) : Option Nat :=
  if idx + 4 ≤ buf.length then
    some (leRead32 (byteAt buf idx) (byteAt buf (idx + 1))
      (byteAt buf (idx + 2)) (byteAt buf (idx + 3)))
  else none

/-- The `for _ in 0..user_comment_list_length` loop of
`parse_vorbis_comment`: starting at position `idx`, read `n` length-prefixed
comments in order. Slice panics and `unwrap` of a UTF-8 error are `fault`. -/
def readComments (buf : List Byte) : Nat → Nat → Outcome (List (List Byte) × Nat)
  | idx, 0 => .ok ([], idx)
  | idx, n + 1 =>
    match readLe32At buf idx with
    | none => .fault
    | some comment_length =>
      match sliceAt buf (idx + 4) (idx + 4 + comment_length) with
      | none => .fault
      | some comment =>
        if validUtf8 comment then
          match readComments buf (idx + 4 + comment_length) n with
          | .ok (rest, last) => .ok (comment :: rest, last)
          | .err e => .err e
          | .fault => .fault
        else .fault

/-- `parse_vorbis_comment(buf: &[u8])`, faithfully including its panics:
every slice is taken without a bounds check (out of range ⇒ `fault`) and
`str::from_utf8(..).unwrap()` panics on invalid UTF-8 (⇒ `fault`). When no
panic occurs the function always returns `Ok`. -/
def parse_vorbis_comment (buf : List Byte) : Outcome VorbisComment :=
  match readLe32At buf 0 with
  | none => .fault
  | some vendor_length =>
    match sliceAt buf 4 (4 + vendor_length) with
    | none => .fault
    | some vendor_string =>
      if validUtf8 vendor_string then
        match readLe32At buf (4 + vendor_length) with
        | none => .fault
        | some user_comment_list_length =>
          match readComments buf (4 + vendor_length + 4) user_comment_list_length with
          | .ok (user_comments, _) => .ok ⟨vendor_string, user_comments⟩
          | .err e => .err e
          | .fault => .fault
      else .fault

/-- Enum `Block`: the metadata block variants. `Reserved` and `Invalid` are
nullary in the source — they carry no data. -/
inductive Block where
  | StreamInfo : StreamInfo → Block
  | Padding : Block
  | Application : Block
  | SeekTable : Block
  | VorbisComment : VorbisComment → Block
  | CueSheet : Block
  | Picture : Block
  | Reserved : Block
  | Invalid : Block
deriving DecidableEq

/-- The `match metadata.block_type` dispatch inside `Stream::blocks`:
`0` and `4` run the two real decoders (whose failures propagate), `1,2,3,5,6`
give the empty variants, `7..=126` gives `Reserved`, anything else
`Invalid`. -/
def dispatchBlock (block_type : Nat) (body : List Byte) : Outcome Block :=
  match block_type with
  | 0 =>
    match parse_stream_info body with
    | .ok si => .ok (.StreamInfo si)
    | .error e => .err e
  | 1 => .ok .Padding
  | 2 => .ok .Application
  | 3 => .ok .SeekTable
  | 4 =>
    match parse_vorbis_comment body with
    | .ok vc => .ok (.VorbisComment vc)
    | .err e => .err e
    | .fault => .fault
  | 5 => .ok .CueSheet
  | 6 => .ok .Picture
  | t => if 7 ≤ t ∧ t ≤ 126 then .ok .Reserved else .ok .Invalid

/-- The 4-byte FLAC signature `fLaC`. -/
def flacMagic : List Byte := [0x66, 0x4c, 0x61, 0x43]

/-- `Stream::new`: `read_exact` 4 bytes (fewer available ⇒ `UnexpectedEof`),
compare against `fLaC`, and on success hand back the source positioned just
past the signature. -/
def Stream.new (src : List Byte) : Except Error (List Byte) :=
  if src.length < 4 then .error .unexpectedEof
  else if src.take 4 ≠ flacMagic then
    .error (.invalidInput "incorrect FLAC magic number")
  else .ok (src.drop 4)

/-- The header (`let metadata = parse_header(meta_buf)`) the current loop
iteration of `Stream::blocks` decodes from the first four source bytes. -/
def headerAt (src : List Byte) : Header :=
  parse_header (byteAt src 0) (byteAt src 1) (byteAt src 2) (byteAt src 3)

/-- The body bytes (`block_buf`) the current loop iteration of
`Stream::blocks` reads after the header. -/
def bodyAt (src : List Byte) : List Byte :=
  (src.drop 4).take (headerAt src).block_length

/-- What remains of the source after the current loop iteration of
`Stream::blocks` consumed its header and body. -/
def restAfter (src : List Byte) : List Byte :=
  (src.drop 4).drop (headerAt src).block_length

/-- `Stream::blocks`: loop reading a 4-byte header (`read_exact`, short ⇒
`UnexpectedEof`), then exactly `block_length` body bytes (short ⇒
`UnexpectedEof`), dispatch on the block type (decoder errors and panics
propagate), collect the `(Header, Block)` pairs in order, and stop right
after the pair whose header has `last_block` set. Returns the pair list
and the unread remainder of the source. -/
def Stream.blocks (src : List Byte) : Outcome (List (Header × Block) × List Byte) :=
  if _h4 : src.length < 4 then .err .unexpectedEof
  else if _hb : (src.drop 4).length < (headerAt src).block_length then .err .unexpectedEof
  else
    match dispatchBlock (headerAt src).block_type (bodyAt src) with
    | .err e => .err e
    | .fault => .fault
    | .ok block =>
      if (headerAt src).last_block then .ok ([(headerAt src, block)], restAfter src)
      else
        match Stream.blocks (restAfter src) with
        | .ok (blocks, last) => .ok ((headerAt src, block) :: blocks, last)
        | .err e => .err e
        | .fault => .fault
termination_by src.length
decreasing_by
  simp only [restAfter, List.length_drop]
  omega

/-- Spec-side predicate: the byte chunk `c` is the wire form of the pair
`p` — its first four bytes decode to `p.1`, its remainder is exactly the
declared body and dispatches to `p.2`. -/
def chunkEncodes (c : List Byte) (p : Header × Block) : Prop :=
  c.length = 4 + p.1.block_length
  ∧ headerAt c = p.1
  ∧ dispatchBlock p.1.block_type (c.drop 4) = Outcome.ok p.2

instance (c : List Byte) (p : Header × Block) : Decidable (chunkEncodes c p) := by
  unfold chunkEncodes
  infer_instance

/-- The record `parse_stream_info` produces on an all-zero 34-byte body. -/
def siZero : StreamInfo where
  minimum_block_size := 0
  maximum_block_size := 0
  minimum_frame_size := 0
  maximum_frame_size := 0
  sample_rate := 0
  channels := 0
  bits_per_sample := 1
  total_samples := 0
  md5_signature := List.replicate 16 0

section Lemmas

lemma land7f_eq_mod : ∀ b : Byte, b.val &&& 0x7f = b.val % 128 := by decide

lemma shift7_eq_testBit : ∀ b : Byte, (b.val >>> 7 == 1) = b.val.testBit 7 := by decide

lemma land01_eq_mod : ∀ b : Byte, b.val &&& 0x01 = b.val % 2 := by decide

lemma landf0_shift_eq_div : ∀ b : Byte, (b.val &&& 0xf0) >>> 4 = b.val / 16 := by decide

lemma land0e_even_le : ∀ b : Byte, (b.val &&& 0x0e) % 2 = 0 ∧ b.val &&& 0x0e ≤ 14 := by
  decide

lemma and_ffffff_eq_mod (n : Nat) : n &&& 0xffffff = n % 2 ^ 24 := by
  have h : (0xffffff : Nat) = 2 ^ 24 - 1 := by norm_num
  rw [h, Nat.and_pow_two_sub_one_eq_mod]

lemma and_mask36_shiftRight (n : Nat) :
    (n &&& 0x0fffffffff000000) >>> 24 = n / 2 ^ 24 % 2 ^ 36 := by
  have hmask : (0x0fffffffff000000 : Nat) = (2 ^ 36 - 1) <<< 24 := by
    rw [Nat.shiftLeft_eq]; norm_num
  have hdiv : n / 2 ^ 24 = n >>> 24 := (Nat.shiftRight_eq_div_pow n 24).symm
  apply Nat.eq_of_testBit_eq
  intro i
  rw [Nat.testBit_shiftRight, Nat.testBit_land, hmask, Nat.testBit_shiftLeft,
    Nat.testBit_two_pow_sub_one, hdiv, Nat.testBit_mod_two_pow, Nat.testBit_shiftRight]
  have h24 : 24 ≤ 24 + i := Nat.le_add_right 24 i
  simp only [Nat.add_sub_cancel_left, ge_iff_le, h24, decide_eq_true_eq, if_true,
    decide_eq_true h24, Bool.true_and]
  exact Bool.and_comm _ _

end Lemmas

/-- **C3**: `parse_header` is total (its result type has no error case) and,
for every 4-byte input, returns the last-block flag equal to bit 7 of byte
0, the block type equal to byte 0 masked to its low 7 bits, and the block
length equal to the low 24 bits of the big-endian 32-bit value of the four
bytes (hence independent of bit 7); in particular byte 0 = `0x80`, `0x00`,
`0x7F` give (terminal, type 0), (not terminal, type 0), (not terminal,
type 127). -/
theorem parse_header_total_and_fields (b0 b1 b2 b3 : Byte) :
    (parse_header b0 b1 b2 b3).last_block = b0.val.testBit 7
    ∧ (parse_header b0 b1 b2 b3).block_type = b0.val % 128
    ∧ (parse_header b0 b1 b2 b3).block_length = beRead32 b0 b1 b2 b3 % 2 ^ 24
    ∧ (parse_header 0x80 b1 b2 b3).last_block = true
    ∧ (parse_header 0x80 b1 b2 b3).block_type = 0
    ∧ (parse_header 0x00 b1 b2 b3).last_block = false
    ∧ (parse_header 0x00 b1 b2 b3).block_type = 0
    ∧ (parse_header 0x7f b1 b2 b3).last_block = false
    ∧ (parse_header 0x7f b1 b2 b3).block_type = 127 := by
  refine ⟨shift7_eq_testBit b0, land7f_eq_mod b0, ?_, rfl, rfl, rfl, rfl, rfl, rfl⟩
  exact and_ffffff_eq_mod _

/-- **C2**: every 34-byte body is accepted (no range validation), and each
field of the result is given by the specified byte-offset/bit formula:
block sizes are the 16-bit big-endian values at offsets 0 and 2, frame
sizes the 32-bit big-endian values at offsets 4 and 7 divided by 2^8,
sample rate the 32-bit big-endian value at offset 10 divided by 2^12,
channels the byte at offset 12 masked with 0x0E, bits-per-sample bit 0 of
byte 12 OR-ed with the high nibble of byte 13, plus 1, total samples bits
24–59 of the 64-bit big-endian value at offset 13 shifted down 24, and the
checksum the 16 bytes at offset 18. -/
theorem parse_stream_info_field_formulas (buf : List Byte) (h : buf.length = 34) :
    ∃ si, parse_stream_info buf = .ok si
    ∧ si.minimum_block_size = (byteAt buf 0).val * 2 ^ 8 + (byteAt buf 1).val
    ∧ si.maximum_block_size = (byteAt buf 2).val * 2 ^ 8 + (byteAt buf 3).val
    ∧ si.minimum_frame_size =
        beRead32 (byteAt buf 4) (byteAt buf 5) (byteAt buf 6) (byteAt buf 7) / 2 ^ 8
    ∧ si.maximum_frame_size =
        beRead32 (byteAt buf 7) (byteAt buf 8) (byteAt buf 9) (byteAt buf 10) / 2 ^ 8
    ∧ si.sample_rate =
        beRead32 (byteAt buf 10) (byteAt buf 11) (byteAt buf 12) (byteAt buf 13) / 2 ^ 12
    ∧ si.channels = (byteAt buf 12).val &&& 0x0e
    ∧ si.bits_per_sample = (((byteAt buf 12).val % 2) ||| ((byteAt buf 13).val / 16)) + 1
    ∧ si.total_samples =
        beRead64 (byteAt buf 13) (byteAt buf 14) (byteAt buf 15) (byteAt buf 16)
          (byteAt buf 17) (byteAt buf 18) (byteAt buf 19) (byteAt buf 20) / 2 ^ 24 % 2 ^ 36
    ∧ si.md5_signature = (buf.drop 18).take 16 := by
  rw [parse_stream_info, if_neg (by omega)]
  refine ⟨_, rfl, rfl, rfl, ?_, ?_, ?_, rfl, ?_, ?_, rfl⟩
  · exact Nat.shiftRight_eq_div_pow _ 8
  · exact Nat.shiftRight_eq_div_pow _ 8
  · exact Nat.shiftRight_eq_div_pow _ 12
  · rw [land01_eq_mod, landf0_shift_eq_div]
  · exact and_mask36_shiftRight _

/-- Witness for **C2** at the all-zero 34-byte body. -/
theorem parse_stream_info_field_formulas_witness :
    (List.replicate 34 (0 : Byte)).length = 34
    ∧ ∃ si, parse_stream_info (List.replicate 34 (0 : Byte)) = .ok si
    ∧ si.minimum_block_size =
        (byteAt (List.replicate 34 (0 : Byte)) 0).val * 2 ^ 8
          + (byteAt (List.replicate 34 (0 : Byte)) 1).val
    ∧ si.maximum_block_size =
        (byteAt (List.replicate 34 (0 : Byte)) 2).val * 2 ^ 8
          + (byteAt (List.replicate 34 (0 : Byte)) 3).val
    ∧ si.minimum_frame_size =
        beRead32 (byteAt (List.replicate 34 (0 : Byte)) 4) (byteAt (List.replicate 34 (0 : Byte)) 5)
          (byteAt (List.replicate 34 (0 : Byte)) 6) (byteAt (List.replicate 34 (0 : Byte)) 7) / 2 ^ 8
    ∧ si.maximum_frame_size =
        beRead32 (byteAt (List.replicate 34 (0 : Byte)) 7) (byteAt (List.replicate 34 (0 : Byte)) 8)
          (byteAt (List.replicate 34 (0 : Byte)) 9) (byteAt (List.replicate 34 (0 : Byte)) 10) / 2 ^ 8
    ∧ si.sample_rate =
        beRead32 (byteAt (List.replicate 34 (0 : Byte)) 10) (byteAt (List.replicate 34 (0 : Byte)) 11)
          (byteAt (List.replicate 34 (0 : Byte)) 12) (byteAt (List.replicate 34 (0 : Byte)) 13) / 2 ^ 12
    ∧ si.channels = (byteAt (List.replicate 34 (0 : Byte)) 12).val &&& 0x0e
    ∧ si.bits_per_sample =
        (((byteAt (List.replicate 34 (0 : Byte)) 12).val % 2)
          ||| ((byteAt (List.replicate 34 (0 : Byte)) 13).val / 16)) + 1
    ∧ si.total_samples =
        beRead64 (byteAt (List.replicate 34 (0 : Byte)) 13) (byteAt (List.replicate 34 (0 : Byte)) 14)
          (byteAt (List.replicate 34 (0 : Byte)) 15) (byteAt (List.replicate 34 (0 : Byte)) 16)
          (byteAt (List.replicate 34 (0 : Byte)) 17) (byteAt (List.replicate 34 (0 : Byte)) 18)
          (byteAt (List.replicate 34 (0 : Byte)) 19) (byteAt (List.replicate 34 (0 : Byte)) 20)
          / 2 ^ 24 % 2 ^ 36
    ∧ si.md5_signature = ((List.replicate 34 (0 : Byte)).drop 18).take 16 :=
  ⟨by decide, parse_stream_info_field_formulas (List.replicate 34 (0 : Byte)) (by decide)⟩

/-- **C8**: `parse_stream_info` fails with the "incorrect size" invalid-input
error on every body whose length is not 34 — the error depends on the length
alone, no byte is interpreted — and succeeds on every 34-byte body. -/
theorem parse_stream_info_length_check (buf : List Byte) :
    (buf.length ≠ 34 →
      parse_stream_info buf = .error (.invalidInput "incorrect size for FLAC stream info block"))
    ∧ (buf.length = 34 → ∃ si, parse_stream_info buf = .ok si) := by
  constructor
  · intro h
    rw [parse_stream_info, if_pos h]
  · intro h
    rw [parse_stream_info, if_neg (by omega)]
    exact ⟨_, rfl⟩

/-- Witness for **C8**: length 33 is rejected, length 34 accepted. -/
theorem parse_stream_info_length_check_witness :
    ((List.replicate 33 (0 : Byte)).length ≠ 34
      ∧ parse_stream_info (List.replicate 33 (0 : Byte)) =
          .error (.invalidInput "incorrect size for FLAC stream info block"))
    ∧ ((List.replicate 34 (0 : Byte)).length = 34
      ∧ ∃ si, parse_stream_info (List.replicate 34 (0 : Byte)) = .ok si) :=
  ⟨⟨by decide, (parse_stream_info_length_check _).1 (by decide)⟩,
   ⟨by decide, (parse_stream_info_length_check _).2 (by decide)⟩⟩

/-- **C10**: on any accepted body the decoded channels value is even and at
most 14 (the `0x0E` mask clears bit 0 and caps at 14) and bits-per-sample
lies in `1..16` (the OR of a 1-bit and a 4-bit value is at most 15, then
incremented). -/
theorem stream_info_channels_bits_range (buf : List Byte) (si : StreamInfo)
    (h : parse_stream_info buf = .ok si) :
    si.channels % 2 = 0 ∧ si.channels ≤ 14
    ∧ 1 ≤ si.bits_per_sample ∧ si.bits_per_sample ≤ 16 := by
  rw [parse_stream_info] at h
  split at h
  · exact absurd h (by simp)
  · cases h
    refine ⟨(land0e_even_le _).1, (land0e_even_le _).2, Nat.le_add_left 1 _, ?_⟩
    show (((byteAt buf 12).val &&& 0x01) ||| (((byteAt buf 13).val &&& 0xf0) >>> 4)) + 1 ≤ 16
    have h1 : (byteAt buf 12).val &&& 0x01 < 2 ^ 4 := by
      rw [land01_eq_mod]
      have := Nat.mod_lt (byteAt buf 12).val (y := 2) (by omega)
      omega
    have h2 : ((byteAt buf 13).val &&& 0xf0) >>> 4 < 2 ^ 4 := by
      rw [landf0_shift_eq_div]
      have := (byteAt buf 13).isLt
      omega
    have := Nat.or_lt_two_pow h1 h2
    omega

/-- Witness for **C10** at the all-zero 34-byte body. -/
theorem stream_info_channels_bits_range_witness :
    parse_stream_info (List.replicate 34 (0 : Byte)) = .ok siZero
    ∧ (siZero.channels % 2 = 0 ∧ siZero.channels ≤ 14
      ∧ 1 ≤ siZero.bits_per_sample ∧ siZero.bits_per_sample ≤ 16) :=
  ⟨rfl, stream_info_channels_bits_range (List.replicate 34 (0 : Byte)) siZero rfl⟩

/-- **C1** (code bug): on malformed comment bodies `parse_vorbis_comment`
panics (an unrecoverable process abort) instead of returning a typed error:
a declared vendor span that is not valid UTF-8 panics via
`str::from_utf8(..).unwrap()`; a vendor length, entry length, or any length
field reaching beyond the body panics via an out-of-bounds slice index. -/
theorem parse_vorbis_comment_panics_on_malformed_input :
    parse_vorbis_comment [0x01, 0x00, 0x00, 0x00, 0xff] = .fault
    ∧ parse_vorbis_comment [0x05, 0x00, 0x00, 0x00] = .fault
    ∧ parse_vorbis_comment [] = .fault
    ∧ parse_vorbis_comment
        [0x00, 0x00, 0x00, 0x00, 0x01, 0x00, 0x00, 0x00, 0x0a, 0x00, 0x00, 0x00] = .fault :=
  ⟨rfl, rfl, rfl, rfl⟩

/-- **C5** counterexample: `Reserved` and `Invalid` are nullary — the block
values produced for the distinct reserved codes 7 and 8 are identical, so
the original code cannot be recovered from the `Block` value. -/
theorem reserved_variant_carries_no_code :
    dispatchBlock 7 [] = .ok Block.Reserved
    ∧ dispatchBlock 8 [] = .ok Block.Reserved
    ∧ (7 : Nat) ≠ 8
    ∧ dispatchBlock 127 [] = .ok Block.Invalid
    ∧ dispatchBlock 126 [] = .ok Block.Reserved :=
  ⟨rfl, rfl, by decide, rfl, rfl⟩

/-- **C5** amended: every block-type code in `7..=126` dispatches to the
(nullary) `Reserved` variant, and code 127 — the only code outside the
defined range reachable from the 7-bit header field — to the (nullary)
`Invalid` variant; the variants carry no payload, so the code itself is
not recoverable from the `Block` value (it stays available in the paired
`Header`). -/
theorem dispatch_reserved_invalid_nullary (t : Nat) (body : List Byte) :
    (7 ≤ t → t ≤ 126 → dispatchBlock t body = .ok Block.Reserved)
    ∧ (t = 127 → dispatchBlock t body = .ok Block.Invalid) := by
  constructor
  · intro h7 h126
    interval_cases t <;> rfl
  · rintro rfl
    rfl

/-- Witness for the amended **C5** at codes 50 and 127. -/
theorem dispatch_reserved_invalid_nullary_witness :
    ((7 : Nat) ≤ 50 ∧ (50 : Nat) ≤ 126 ∧ dispatchBlock 50 [] = .ok Block.Reserved)
    ∧ ((127 : Nat) = 127 ∧ dispatchBlock 127 [] = .ok Block.Invalid) :=
  ⟨⟨by decide, by decide,
      (dispatch_reserved_invalid_nullary 50 []).1 (by decide) (by decide)⟩,
   ⟨rfl, (dispatch_reserved_invalid_nullary 127 []).2 rfl⟩⟩

/-- **C6** counterexample: on a source of fewer than 4 bytes `Stream::new`
fails with the end-of-file error of `read_exact`, not with the invalid-signature
error the claim asserts. -/
theorem stream_new_short_source_error_kind :
    Stream.new [0x66, 0x4c, 0x61] = .error .unexpectedEof
    ∧ Stream.new [0x66, 0x4c, 0x61] ≠ .error (.invalidInput "incorrect FLAC magic number") := by
  have h1 : Stream.new [0x66, 0x4c, 0x61] = .error .unexpectedEof := rfl
  refine ⟨h1, ?_⟩
  rw [h1]
  intro h
  exact absurd (Except.error.inj h) (by decide)

/-- **C6** amended: `Stream::new` succeeds exactly when the source starts
with the 4 bytes `fLaC`, leaving the cursor just past them; a 4-byte
mismatch fails with the invalid-signature (`InvalidInput`) error, while a
source of fewer than 4 bytes fails with the `UnexpectedEof` of `read_exact`
error; in every case nothing beyond the first 4 bytes is read. -/
theorem stream_new_signature_check (src : List Byte) :
    (Stream.new src = .ok (src.drop 4) ↔ src.take 4 = flacMagic)
    ∧ (4 ≤ src.length → src.take 4 ≠ flacMagic →
        Stream.new src = .error (.invalidInput "incorrect FLAC magic number"))
    ∧ (src.length < 4 → Stream.new src = .error .unexpectedEof) := by
  refine ⟨⟨?_, ?_⟩, ?_, ?_⟩
  · intro h
    rw [Stream.new] at h
    split at h
    · exact absurd h (by simp)
    · split at h
      · exact absurd h (by simp)
      · rename_i hcond
        exact not_not.mp hcond
  · intro h
    have hlen : 4 ≤ src.length := by
      have := congrArg List.length h
      simp [List.length_take, flacMagic] at this
      omega
    rw [Stream.new, if_neg (by omega), if_neg (by simp [h])]
  · intro h4 hne
    rw [Stream.new, if_neg (by omega), if_pos hne]
  · intro h
    rw [Stream.new, if_pos h]

/-- Witness for the amended **C6**: accepted on `fLaC` + one byte, rejected
with the right errors on a mismatch and on a short source. -/
theorem stream_new_signature_check_witness :
    (Stream.new [0x66, 0x4c, 0x61, 0x43, 0x07] =
        .ok (([0x66, 0x4c, 0x61, 0x43, 0x07] : List Byte).drop 4)
      ↔ ([0x66, 0x4c, 0x61, 0x43, 0x07] : List Byte).take 4 = flacMagic)
    ∧ (4 ≤ ([0x66, 0x4c, 0x61, 0x44] : List Byte).length
      ∧ ([0x66, 0x4c, 0x61, 0x44] : List Byte).take 4 ≠ flacMagic
      ∧ Stream.new [0x66, 0x4c, 0x61, 0x44] =
          .error (.invalidInput "incorrect FLAC magic number"))
    ∧ (([0x61] : List Byte).length < 4 ∧ Stream.new [0x61] = .error .unexpectedEof) :=
  ⟨(stream_new_signature_check [0x66, 0x4c, 0x61, 0x43, 0x07]).1,
   ⟨by decide, by decide,
     (stream_new_signature_check [0x66, 0x4c, 0x61, 0x44]).2.1 (by decide) (by decide)⟩,
   ⟨by decide, (stream_new_signature_check [0x61]).2.2 (by decide)⟩⟩

section WalkerLemmas

lemma byteAt_append_left (l1 l2 : List Byte) (i : Nat) (h : i < l1.length) :
    byteAt (l1 ++ l2) i = byteAt l1 i := by
  simp [byteAt, List.getD_eq_getElem?_getD, List.getElem?_append, h]

lemma byteAt_take (l : List Byte) (n i : Nat) (h : i < n) :
    byteAt (l.take n) i = byteAt l i := by
  simp [byteAt, List.getD_eq_getElem?_getD, List.getElem?_take, h]

lemma headerAt_append (c tail : List Byte) (h : 4 ≤ c.length) :
    headerAt (c ++ tail) = headerAt c := by
  unfold headerAt
  rw [byteAt_append_left _ _ 0 (by omega), byteAt_append_left _ _ 1 (by omega),
    byteAt_append_left _ _ 2 (by omega), byteAt_append_left _ _ 3 (by omega)]

lemma headerAt_take (src : List Byte) (n : Nat) (h : 4 ≤ n) :
    headerAt (src.take n) = headerAt src := by
  unfold headerAt
  rw [byteAt_take _ _ 0 (by omega), byteAt_take _ _ 1 (by omega),
    byteAt_take _ _ 2 (by omega), byteAt_take _ _ 3 (by omega)]

lemma blocks_eof_header (src : List Byte) (h : src.length < 4) :
    Stream.blocks src = .err .unexpectedEof := by
  rw [Stream.blocks, dif_pos h]

lemma blocks_eof_body (src : List Byte) (h4 : ¬ src.length < 4)
    (hb : (src.drop 4).length < (headerAt src).block_length) :
    Stream.blocks src = .err .unexpectedEof := by
  rw [Stream.blocks, dif_neg h4, dif_pos hb]

lemma blocks_run (src : List Byte) (h4 : ¬ src.length < 4)
    (hb : ¬ (src.drop 4).length < (headerAt src).block_length) :
    Stream.blocks src =
      match dispatchBlock (headerAt src).block_type (bodyAt src) with
      | .err e => .err e
      | .fault => .fault
      | .ok block =>
        if (headerAt src).last_block then .ok ([(headerAt src, block)], restAfter src)
        else
          match Stream.blocks (restAfter src) with
          | .ok (blocks, last) => .ok ((headerAt src, block) :: blocks, last)
          | .err e => .err e
          | .fault => .fault := by
  rw [Stream.blocks, dif_neg h4, dif_neg hb]

lemma chunk_facts (c tail : List Byte) (hdr : Header) (blk : Block)
    (hc : chunkEncodes c (hdr, blk)) :
    headerAt (c ++ tail) = hdr
    ∧ ¬ (c ++ tail).length < 4
    ∧ ¬ ((c ++ tail).drop 4).length < (headerAt (c ++ tail)).block_length
    ∧ bodyAt (c ++ tail) = c.drop 4
    ∧ restAfter (c ++ tail) = tail := by
  have hlen : c.length = 4 + hdr.block_length := hc.1
  have hhdr : headerAt c = hdr := hc.2.1
  have h4 : 4 ≤ c.length := by omega
  have hha : headerAt (c ++ tail) = hdr := by rw [headerAt_append c tail h4, hhdr]
  have hdropapp : (c ++ tail).drop 4 = c.drop 4 ++ tail := by
    rw [List.drop_append_eq_append_drop]
    have h0 : 4 - c.length = 0 := by omega
    rw [h0, List.drop_zero]
  have hdlen : (c.drop 4).length = hdr.block_length := by
    simp only [List.length_drop]; omega
  refine ⟨hha, by simp only [List.length_append]; omega, ?_, ?_, ?_⟩
  · rw [hha, hdropapp]
    simp only [List.length_append]
    omega
  · unfold bodyAt
    rw [hha, hdropapp, List.take_append_eq_append_take, hdlen, Nat.sub_self, List.take_zero,
      List.append_nil, ← hdlen, List.take_length]
  · unfold restAfter
    rw [hha, hdropapp, List.drop_append_eq_append_drop, hdlen, Nat.sub_self, List.drop_zero,
      ← hdlen, List.drop_length, List.nil_append]

lemma blocks_step_chunk (c tail : List Byte) (hdr : Header) (blk : Block)
    (hc : chunkEncodes c (hdr, blk)) :
    Stream.blocks (c ++ tail) =
      if hdr.last_block then .ok ([(hdr, blk)], tail)
      else
        match Stream.blocks tail with
        | .ok (l, last) => .ok ((hdr, blk) :: l, last)
        | .err e => .err e
        | .fault => .fault := by
  obtain ⟨hha, h4, hb, hbody, hrest⟩ := chunk_facts c tail hdr blk hc
  rw [blocks_run _ h4 hb, hha, hbody, hrest, hc.2.2]

lemma chunk_of_src (src : List Byte) (h4 : ¬ src.length < 4)
    (hb : ¬ (src.drop 4).length < (headerAt src).block_length)
    (blk : Block)
    (hdisp : dispatchBlock (headerAt src).block_type (bodyAt src) = .ok blk) :
    chunkEncodes (src.take (4 + (headerAt src).block_length)) (headerAt src, blk)
    ∧ src = src.take (4 + (headerAt src).block_length) ++ restAfter src := by
  have hlen : (src.drop 4).length = src.length - 4 := by simp only [List.length_drop]
  have hble : (headerAt src).block_length ≤ src.length - 4 := by omega
  constructor
  · refine ⟨?_, ?_, ?_⟩
    · show (src.take (4 + (headerAt src).block_length)).length = 4 + (headerAt src).block_length
      rw [List.length_take]; omega
    · exact headerAt_take src _ (by omega)
    · rw [List.drop_take]
      have : 4 + (headerAt src).block_length - 4 = (headerAt src).block_length := by omega
      rw [this]
      exact hdisp
  · unfold restAfter
    rw [List.drop_drop]
    exact (List.take_append_drop _ _).symm

lemma blocks_ok_decomposition :
    ∀ (n : Nat) (src : List Byte), src.length = n →
      ∀ (l : List (Header × Block)) (rest : List Byte),
        Stream.blocks src = .ok (l, rest) →
        ∃ chunks : List (List Byte),
          src = chunks.flatten ++ rest
          ∧ List.Forall₂ chunkEncodes chunks l
          ∧ (∀ extra, Stream.blocks (chunks.flatten ++ extra) = .ok (l, extra))
          ∧ ∃ init lastp, l = init ++ [lastp]
              ∧ (∀ p ∈ init, p.1.last_block = false)
              ∧ lastp.1.last_block = true := by
  intro n
  induction n using Nat.strong_induction_on with
  | _ n ih =>
    intro src hn l rest h
    by_cases h4 : src.length < 4
    · rw [blocks_eof_header src h4] at h
      exact absurd h (by simp)
    by_cases hb : (src.drop 4).length < (headerAt src).block_length
    · rw [blocks_eof_body src h4 hb] at h
      exact absurd h (by simp)
    rw [blocks_run src h4 hb] at h
    split at h
    · exact absurd h (by simp)
    · exact absurd h (by simp)
    rename_i blk hdisp
    obtain ⟨hchunk, hsplit⟩ := chunk_of_src src h4 hb blk hdisp
    split at h
    · rename_i hlast
      simp only [Outcome.ok.injEq, Prod.mk.injEq] at h
      obtain ⟨hl, hrest⟩ := h
      refine ⟨[src.take (4 + (headerAt src).block_length)], ?_, ?_, ?_, [], (headerAt src, blk),
        by simp [← hl], by simp, hlast⟩
      · simpa [← hrest] using hsplit
      · rw [← hl]
        exact List.Forall₂.cons hchunk List.Forall₂.nil
      · intro extra
        have hstep := blocks_step_chunk _ extra _ _ hchunk
        simpa [← hl, if_pos hlast] using hstep
    · rename_i hlast
      split at h
      · rename_i l' last' hrec
        simp only [Outcome.ok.injEq, Prod.mk.injEq] at h
        obtain ⟨hl, hrest⟩ := h
        subst hrest
        have hrlen : (restAfter src).length < n := by
          unfold restAfter
          simp only [List.length_drop]
          omega
        obtain ⟨chunks', hsplit', hforall', hreplay', init', lastp', hl', hinit', hlastp'⟩ :=
          ih _ hrlen (restAfter src) rfl l' last' hrec
        have hlastf : (headerAt src).last_block = false := by
          simpa using hlast
        refine ⟨src.take (4 + (headerAt src).block_length) :: chunks', ?_, ?_, ?_,
          (headerAt src, blk) :: init', lastp', ?_, ?_, hlastp'⟩
        · rw [List.flatten_cons, List.append_assoc, ← hsplit']
          exact hsplit
        · rw [← hl]
          exact List.Forall₂.cons hchunk hforall'
        · intro extra
          rw [List.flatten_cons, List.append_assoc]
          have hstep := blocks_step_chunk (src.take (4 + (headerAt src).block_length))
            (chunks'.flatten ++ extra) _ _ hchunk
          rw [hstep, if_neg hlast, hreplay' extra, ← hl]
        · rw [← hl, hl', List.cons_append]
        · intro p hp
          rcases List.mem_cons.mp hp with hp | hp
          · rw [hp]
            exact hlastf
          · exact hinit' p hp
      · exact absurd h (by simp)
      · exact absurd h (by simp)

lemma blocks_single_padding :
    Stream.blocks [0x81, 0x00, 0x00, 0x00] =
      .ok ([(⟨true, 1, 0⟩, Block.Padding)], []) := by
  have h := blocks_step_chunk [0x81, 0x00, 0x00, 0x00] [] ⟨true, 1, 0⟩ Block.Padding (by decide)
  simpa using h

lemma blocks_two_padding :
    Stream.blocks [0x01, 0x00, 0x00, 0x00, 0x81, 0x00, 0x00, 0x00] =
      .ok ([(⟨false, 1, 0⟩, Block.Padding), (⟨true, 1, 0⟩, Block.Padding)], []) := by
  have h := blocks_step_chunk [0x01, 0x00, 0x00, 0x00] [0x81, 0x00, 0x00, 0x00]
    ⟨false, 1, 0⟩ Block.Padding (by decide)
  rw [show ([0x01, 0x00, 0x00, 0x00] : List Byte) ++ [0x81, 0x00, 0x00, 0x00] =
    [0x01, 0x00, 0x00, 0x00, 0x81, 0x00, 0x00, 0x00] from rfl] at h
  rw [h, if_neg (by simp), blocks_single_padding]

end WalkerLemmas

/-- **C4**: whenever `Stream::blocks` succeeds, the source splits into
consecutive chunks, one per returned pair and in the same order (each chunk
decoding, via its first 4 bytes and its body, to exactly its pair — no
reordering, deduplication or merging), followed by the unread remainder;
the pair list ends at the first terminal header; and the parse never reads
past the payload of the terminal pair: replacing everything after the consumed
chunks by arbitrary bytes yields the same pair list with those bytes
untouched. -/
theorem blocks_order_and_stopping (src : List Byte) (l : List (Header × Block))
    (rest : List Byte) (h : Stream.blocks src = .ok (l, rest)) :
    ∃ chunks : List (List Byte),
      src = chunks.flatten ++ rest
      ∧ List.Forall₂ chunkEncodes chunks l
      ∧ (∀ extra, Stream.blocks (chunks.flatten ++ extra) = .ok (l, extra))
      ∧ ∃ init lastp, l = init ++ [lastp]
          ∧ (∀ p ∈ init, p.1.last_block = false)
          ∧ lastp.1.last_block = true :=
  blocks_ok_decomposition src.length src rfl l rest h

/-- Witness for **C4**: a single terminal padding block. -/
theorem blocks_order_and_stopping_witness :
    Stream.blocks [0x81, 0x00, 0x00, 0x00] = .ok ([(⟨true, 1, 0⟩, Block.Padding)], [])
    ∧ ∃ chunks : List (List Byte),
        [0x81, 0x00, 0x00, 0x00] = chunks.flatten ++ ([] : List Byte)
        ∧ List.Forall₂ chunkEncodes chunks [(⟨true, 1, 0⟩, Block.Padding)]
        ∧ (∀ extra, Stream.blocks (chunks.flatten ++ extra) =
            .ok ([(⟨true, 1, 0⟩, Block.Padding)], extra))
        ∧ ∃ init lastp,
            ([(⟨true, 1, 0⟩, Block.Padding)] : List (Header × Block)) = init ++ [lastp]
            ∧ (∀ p ∈ init, p.1.last_block = false)
            ∧ lastp.1.last_block = true :=
  ⟨blocks_single_padding,
   blocks_order_and_stopping [0x81, 0x00, 0x00, 0x00] _ _ blocks_single_padding⟩

/-- **C7**: every failure aborts the whole `Stream::blocks` call: a source
too short for a header, a source too short for a declared payload, a
dispatched decoder returning an error or panicking, and an error in a
later iteration all make the whole call fail, and no partial pair list is
ever returned alongside a failure. -/
theorem blocks_error_propagation (src : List Byte) :
    (src.length < 4 → Stream.blocks src = .err .unexpectedEof)
    ∧ (4 ≤ src.length → src.length < 4 + (headerAt src).block_length →
        Stream.blocks src = .err .unexpectedEof)
    ∧ (∀ e, 4 + (headerAt src).block_length ≤ src.length →
        dispatchBlock (headerAt src).block_type (bodyAt src) = .err e →
        Stream.blocks src = .err e)
    ∧ (4 + (headerAt src).block_length ≤ src.length →
        dispatchBlock (headerAt src).block_type (bodyAt src) = .fault →
        Stream.blocks src = .fault)
    ∧ (∀ blk e, 4 + (headerAt src).block_length ≤ src.length →
        dispatchBlock (headerAt src).block_type (bodyAt src) = .ok blk →
        (headerAt src).last_block = false →
        Stream.blocks (restAfter src) = .err e →
        Stream.blocks src = .err e)
    ∧ (∀ l rest e, Stream.blocks src = .ok (l, rest) → Stream.blocks src ≠ .err e) := by
  refine ⟨blocks_eof_header src, ?_, ?_, ?_, ?_, ?_⟩
  · intro h4 hlen
    exact blocks_eof_body src (by omega) (by simp only [List.length_drop]; omega)
  · intro e hlen hdisp
    rw [blocks_run src (by omega) (by simp only [List.length_drop]; omega), hdisp]
  · intro hlen hdisp
    rw [blocks_run src (by omega) (by simp only [List.length_drop]; omega), hdisp]
  · intro blk e hlen hdisp hlast hrec
    rw [blocks_run src (by omega) (by simp only [List.length_drop]; omega), hdisp]
    show (if (headerAt src).last_block = true
        then Outcome.ok ([(headerAt src, blk)], restAfter src)
        else match Stream.blocks (restAfter src) with
          | .ok (blocks, last) => .ok ((headerAt src, blk) :: blocks, last)
          | .err e2 => .err e2
          | .fault => .fault) = Outcome.err e
    rw [if_neg (by simp [hlast]), hrec]
  · intro l rest e hok
    rw [hok]
    simp

/-- Witness for **C7**: an empty source and a 4-byte source whose header
declares a 1-byte payload that is missing. -/
theorem blocks_error_propagation_witness :
    (([] : List Byte).length < 4 ∧ Stream.blocks [] = .err .unexpectedEof)
    ∧ (4 ≤ ([0x00, 0x00, 0x00, 0x01] : List Byte).length
      ∧ ([0x00, 0x00, 0x00, 0x01] : List Byte).length <
          4 + (headerAt [0x00, 0x00, 0x00, 0x01]).block_length
      ∧ Stream.blocks [0x00, 0x00, 0x00, 0x01] = .err .unexpectedEof) :=
  ⟨⟨by decide, (blocks_error_propagation []).1 (by decide)⟩,
   ⟨by decide, by decide,
     (blocks_error_propagation [0x00, 0x00, 0x00, 0x01]).2.1 (by decide) (by decide)⟩⟩

/-- **C9**: whenever `Stream::blocks` succeeds, the returned pair list is
non-empty, all pairs before the last have the terminal flag cleared, and
the last pair has it set — exactly one terminal header, in final
position. -/
theorem blocks_exactly_one_terminal (src : List Byte) (l : List (Header × Block))
    (rest : List Byte) (h : Stream.blocks src = .ok (l, rest)) :
    l ≠ []
    ∧ ∃ init lastp, l = init ++ [lastp]
        ∧ (∀ p ∈ init, p.1.last_block = false)
        ∧ lastp.1.last_block = true := by
  obtain ⟨_, _, _, _, init, lastp, hl, hinit, hlast⟩ :=
    blocks_ok_decomposition src.length src rfl l rest h
  exact ⟨by simp [hl], init, lastp, hl, hinit, hlast⟩

/-- Witness for **C9**: a non-terminal padding block followed by a terminal
padding block. -/
theorem blocks_exactly_one_terminal_witness :
    Stream.blocks [0x01, 0x00, 0x00, 0x00, 0x81, 0x00, 0x00, 0x00] =
      .ok ([(⟨false, 1, 0⟩, Block.Padding), (⟨true, 1, 0⟩, Block.Padding)], [])
    ∧ ([(⟨false, 1, 0⟩, Block.Padding), (⟨true, 1, 0⟩, Block.Padding)] :
        List (Header × Block)) ≠ []
    ∧ ∃ init lastp,
        ([(⟨false, 1, 0⟩, Block.Padding), (⟨true, 1, 0⟩, Block.Padding)] :
          List (Header × Block)) = init ++ [lastp]
        ∧ (∀ p ∈ init, p.1.last_block = false)
        ∧ lastp.1.last_block = true :=
  ⟨blocks_two_padding, blocks_exactly_one_terminal _ _ _ blocks_two_padding⟩

end Flac
